import Mathlib

set_option maxRecDepth 100000

/-!
Verification of the rate-limit-aware JSON poster in
`skills/discord/scripts/_http.py` (functions `_read_http_body`,
`_sanitize_url_for_logs`, `_parse_rate_limit_info`, `post_json`).

The Python code is shallowly embedded: text is `List Char`, Python floats are
modelled as rationals (`ℚ`; the claims under study only involve `min`, `max`,
comparison and addition, which round-trip faithfully), JSON values are an
inductive type with an executable parser and serializer modelling Python's
`json.loads` / `json.dumps`, and the stateful retry loop is explicit state
passing over a stream of per-attempt HTTP outcomes supplied by the
environment.
-/

namespace DiscordHttp

/-- JSON values as produced by Python's `json.loads`: objects keep their
fields in order of appearance (later duplicates win on lookup, as in a Python
dict built by the stdlib parser). -/
inductive Json where
  | null : Json
  | bool (b : Bool) : Json
  | num (q : ℚ) : Json
  | str (s : List Char) : Json
  | arr (elts : List Json) : Json
  | obj (fields : List (List Char × Json)) : Json

/-- Last-binding lookup in a JSON object's field list, matching the semantics
of a Python dict built from a JSON text with duplicate keys (later wins). -/
def lookupLast (fields : List (List Char × Json)) (key : List Char) : Option Json :=
  match fields with
  | [] => none
  | (k, v) :: rest =>
      match lookupLast rest key with
      | some r => some r
      | none => if k = key then some v else none

/-- Python truthiness `bool(x)` on a JSON-decoded value. -/
def jsonTruthy : Json → Bool
  | Json.null => false
  | Json.bool b => b
  | Json.num q => q != 0
  | Json.str s => !s.isEmpty
  | Json.arr elts => !elts.isEmpty
  | Json.obj fields => !fields.isEmpty

/-- Decimal digit string of a natural number. -/
def natDigits (n : Nat) : List Char :=
  (Nat.toDigits 10 n)

/-- Decimal string of an integer (with a leading minus sign when negative). -/
def intStr (i : Int) : List Char :=
  if i < 0 then '-' :: natDigits i.natAbs else natDigits i.natAbs

/-- Hex digit for a value below 16. -/
def hexDigit (n : Nat) : Char :=
  if n < 10 then Char.ofNat ('0'.toNat + n) else Char.ofNat ('a'.toNat + (n - 10))

/-- Four-digit hex rendering used by `\uXXXX` escapes. -/
def hex4 (n : Nat) : List Char :=
  [hexDigit ((n / 4096) % 16), hexDigit ((n / 256) % 16), hexDigit ((n / 16) % 16), hexDigit (n % 16)]

/-- `json.dumps` escaping of a single character inside a string literal
(default `ensure_ascii=True`: control and non-ASCII characters become
`\uXXXX`). -/
def dumpChar (c : Char) : List Char :=
  if c = '"' then ['\\', '"']
  else if c = '\\' then ['\\', '\\']
  else if c = '\n' then ['\\', 'n']
  else if c = '\t' then ['\\', 't']
  else if c = '\r' then ['\\', 'r']
  else if c = Char.ofNat 8 then ['\\', 'b']
  else if c = Char.ofNat 12 then ['\\', 'f']
  else if c.toNat < 32 ∨ c.toNat > 126 then '\\' :: 'u' :: hex4 c.toNat
  else [c]

/-- `json.dumps` rendering of a string literal. -/
def dumpStr (s : List Char) : List Char :=
  '"' :: (s.map dumpChar).flatten ++ ['"']

/-- `json.dumps` rendering of a number. Integral values print as Python ints.
Python renders non-integral floats via shortest-roundtrip `repr`, which has no
rational counterpart; this model prints `num/den` instead. No payload in this
repository carries a non-integral number, so the difference is inert here. -/
def dumpNum (q : ℚ) : List Char :=
  if q.den = 1 then intStr q.num
  else intStr q.num ++ '/' :: natDigits q.den

mutual

/-- `json.dumps` with its default separators (`, ` between items, `: ` after
keys), as called by `post_json`. -/
def dumps : Json → List Char
  | Json.null => "null".data
  | Json.bool true => "true".data
  | Json.bool false => "false".data
  | Json.num q => dumpNum q
  | Json.str s => dumpStr s
  | Json.arr elts => '[' :: dumpsList elts ++ [']']
  | Json.obj fields => '\x7b' :: dumpsFields fields ++ ['\x7d']

/-- Array elements joined by `, `. -/
def dumpsList : List Json → List Char
  | [] => []
  | [j] => dumps j
  | j :: rest => dumps j ++ ',' :: ' ' :: dumpsList rest

/-- Object fields joined by `, `, each rendered `"key": value`. -/
def dumpsFields : List (List Char × Json) → List Char
  | [] => []
  | [(k, v)] => dumpStr k ++ ':' :: ' ' :: dumps v
  | (k, v) :: rest => dumpStr k ++ ':' :: ' ' :: dumps v ++ ',' :: ' ' :: dumpsFields rest

end

/-- JSON whitespace accepted between tokens by Python's `json.loads`. -/
def isJsonWs (c : Char) : Bool :=
  c = ' ' || c = '\t' || c = '\n' || c = '\r'

/-- Skip JSON whitespace. -/
def skipWs (cs : List Char) : List Char :=
  cs.dropWhile isJsonWs

/-- ASCII decimal digit test. -/
def isDigitChar (c : Char) : Bool :=
  '0' ≤ c && c ≤ '9'

/-- Value of an ASCII decimal digit. -/
def digitVal (c : Char) : Nat :=
  c.toNat - '0'.toNat

/-- Natural number denoted by a list of ASCII digits (most significant
first). -/
def digitsVal (ds : List Char) : Nat :=
  ds.foldl (fun acc c => 10 * acc + digitVal c) 0

/-- Hex digit test. -/
def isHexChar (c : Char) : Bool :=
  isDigitChar c || ('a' ≤ c && c ≤ 'f') || ('A' ≤ c && c ≤ 'F')

/-- Value of a hex digit. -/
def hexVal (c : Char) : Nat :=
  if isDigitChar c then digitVal c
  else if 'a' ≤ c && c ≤ 'f' then c.toNat - 'a'.toNat + 10
  else c.toNat - 'A'.toNat + 10

/-- Split leading decimal digits off a character list. -/
def takeDigits (cs : List Char) : List Char × List Char :=
  (cs.takeWhile isDigitChar, cs.dropWhile isDigitChar)

/-- Parse the body of a JSON string literal (after the opening quote), with
the escapes `\" \\ \/ \b \f \n \r \t \uXXXX` of the grammar; raw control
characters are rejected as in Python's default strict mode. Surrogate-pair
recombination is not modelled. Returns the decoded text and the input past
the closing quote. -/
def parseStringBody : Nat → List Char → Option (List Char × List Char)
  | 0, _ => none
  | _, [] => none
  | Nat.succ fuel, c :: rest =>
      let cont (decoded : Char) (tail : List Char) : Option (List Char × List Char) :=
        match parseStringBody fuel tail with
        | some (s, r) => some (decoded :: s, r)
        | none => none
      if c = '"' then some ([], rest)
      else if c = '\\' then
        match rest with
        | [] => none
        | e :: rest2 =>
            if e = '"' then cont '"' rest2
            else if e = '\\' then cont '\\' rest2
            else if e = '/' then cont '/' rest2
            else if e = 'b' then cont (Char.ofNat 8) rest2
            else if e = 'f' then cont (Char.ofNat 12) rest2
            else if e = 'n' then cont '\n' rest2
            else if e = 'r' then cont '\r' rest2
            else if e = 't' then cont '\t' rest2
            else if e = 'u' then
              match rest2 with
              | h1 :: h2 :: h3 :: h4 :: rest3 =>
                  if isHexChar h1 && isHexChar h2 && isHexChar h3 && isHexChar h4 then
                    cont (Char.ofNat (((hexVal h1 * 16 + hexVal h2) * 16 + hexVal h3) * 16 + hexVal h4)) rest3
                  else none
              | _ => none
            else none
      else if c.toNat < 32 then none
      else cont c rest

/-- Digit-level decomposition of a decimal literal: sign, integer part,
fractional digits (value and count), exponent. Kept in `ℕ`/`Bool` form so
that concrete parses evaluate inside the kernel; the rational value is built
by `ratOfParts` at the boundary. -/
structure NumParts where
  neg : Bool
  intVal : Nat
  fracVal : Nat
  fracLen : Nat
  expNeg : Bool
  expVal : Nat
deriving DecidableEq, Repr

/-- Exact rational value of a decimal literal. Python converts to the nearest
binary float; the claims under study never depend on that rounding. -/
def ratOfParts (p : NumParts) : ℚ :=
  let mantissa : ℚ := (p.intVal : ℚ) + (p.fracVal : ℚ) / ((10 : ℚ) ^ p.fracLen)
  let scaled : ℚ :=
    if p.expNeg then mantissa / (10 : ℚ) ^ p.expVal else mantissa * (10 : ℚ) ^ p.expVal
  if p.neg then -scaled else scaled

/-- Parse a JSON number per the grammar `-? int frac? exp?` (no leading `+`,
no leading zeros in the integer part). Returns its digit decomposition and
the unconsumed input. -/
def parseNumber (cs : List Char) : Option (NumParts × List Char) :=
  let (neg, cs1) : Bool × List Char :=
    match cs with
    | '-' :: rest => (true, rest)
    | _ => (false, cs)
  let (intDs, cs2) := takeDigits cs1
  if intDs = [] then none
  else if intDs.length > 1 ∧ intDs.head? = some '0' then none
  else
    let (fracDs, cs3) : List Char × List Char :=
      match cs2 with
      | '.' :: rest => takeDigits rest
      | _ => ([], cs2)
    -- a '.' must be followed by at least one digit
    if (cs2.head? = some '.') ∧ fracDs = [] then none
    else
      let expPart : Option (Bool × List Char × List Char) :=
        match cs3 with
        | e :: rest =>
            if e = 'e' ∨ e = 'E' then
              let (expNeg, rest2) : Bool × List Char :=
                match rest with
                | '+' :: r => (false, r)
                | '-' :: r => (true, r)
                | _ => (false, rest)
              let (ds, rest3) := takeDigits rest2
              if ds = [] then none else some (expNeg, ds, rest3)
            else some (false, [], cs3)
        | [] => some (false, [], cs3)
      match expPart with
      | none => none
      | some (expNeg, expDs, cs4) =>
          some (⟨neg, digitsVal intDs, digitsVal fracDs, fracDs.length, expNeg, digitsVal expDs⟩, cs4)

mutual

/-- One step of the recursive-descent JSON value parser, fueled so that
recursion is structural. Mirrors the grammar accepted by Python's
`json.loads`: literals `null`/`true`/`false`, numbers, strings, arrays,
objects, with JSON whitespace between tokens. Python's non-standard
`NaN`/`Infinity` extensions are not modelled (no claim involves them).
Returns the value and the unconsumed input. -/
def parseValue : Nat → List Char → Option (Json × List Char)
  | 0, _ => none
  | Nat.succ fuel, cs =>
      match skipWs cs with
      | [] => none
      | c :: rest =>
          if c = 'n' then
            match rest with
            | 'u' :: 'l' :: 'l' :: rest2 => some (Json.null, rest2)
            | _ => none
          else if c = 't' then
            match rest with
            | 'r' :: 'u' :: 'e' :: rest2 => some (Json.bool true, rest2)
            | _ => none
          else if c = 'f' then
            match rest with
            | 'a' :: 'l' :: 's' :: 'e' :: rest2 => some (Json.bool false, rest2)
            | _ => none
          else if c = '"' then
            match parseStringBody (rest.length + 1) rest with
            | some (s, rest2) => some (Json.str s, rest2)
            | none => none
          else if c = '[' then
            match skipWs rest with
            | ']' :: rest2 => some (Json.arr [], rest2)
            | _ => parseElems fuel rest []
          else if c = '\x7b' then
            match skipWs rest with
            | '\x7d' :: rest2 => some (Json.obj [], rest2)
            | _ => parseFields fuel rest []
          else if isDigitChar c ∨ c = '-' then
            match parseNumber (c :: rest) with
            | some (p, rest2) => some (Json.num (ratOfParts p), rest2)
            | none => none
          else none

/-- Comma-separated array elements after `[`, accumulated in reverse. -/
def parseElems : Nat → List Char → List Json → Option (Json × List Char)
  | 0, _, _ => none
  | Nat.succ fuel, cs, acc =>
      match parseValue fuel cs with
      | none => none
      | some (v, rest) =>
          match skipWs rest with
          | ',' :: rest2 => parseElems fuel rest2 (v :: acc)
          | ']' :: rest2 => some (Json.arr (v :: acc).reverse, rest2)
          | _ => none

/-- Comma-separated `"key": value` pairs after a left brace, accumulated in
reverse. -/
def parseFields : Nat → List Char → List (List Char × Json) → Option (Json × List Char)
  | 0, _, _ => none
  | Nat.succ fuel, cs, acc =>
      match skipWs cs with
      | '"' :: rest =>
          match parseStringBody (rest.length + 1) rest with
          | none => none
          | some (k, rest2) =>
              match skipWs rest2 with
              | ':' :: rest3 =>
                  match parseValue fuel rest3 with
                  | none => none
                  | some (v, rest4) =>
                      match skipWs rest4 with
                      | ',' :: rest5 => parseFields fuel rest5 ((k, v) :: acc)
                      | '\x7d' :: rest5 => some (Json.obj ((k, v) :: acc).reverse, rest5)
                      | _ => none
              | _ => none
      | _ => none

end

/-- Model of Python's `json.loads`: parse one JSON value, demand only
whitespace after it; `none` models a raised `json.JSONDecodeError`. -/
def loads (body : List Char) : Option Json :=
  match parseValue (body.length + 1) body with
  | some (j, rest) => if skipWs rest = [] then some j else none
  | none => none

/-- Digit-level model of Python's `float(str)`: optional surrounding
whitespace, optional sign, decimal digits with optional fraction and
exponent. `none` models a raised `ValueError`. Not modelled (noted, none
affects a claim): `inf`/`nan` spellings, whose values have no rational
counterpart, and digit-group underscores. -/
def pyFloatParts (cs : List Char) : Option NumParts :=
  let trimmed := (((cs.dropWhile isJsonWs).reverse).dropWhile isJsonWs).reverse
  let (neg, cs1) : Bool × List Char :=
    match trimmed with
    | '-' :: rest => (true, rest)
    | '+' :: rest => (false, rest)
    | _ => (false, trimmed)
  let (intDs, cs2) := takeDigits cs1
  let (fracDs, cs3) : List Char × List Char :=
    match cs2 with
    | '.' :: rest => takeDigits rest
    | _ => ([], cs2)
  if intDs = [] ∧ fracDs = [] then none
  else
    let expPart : Option (Bool × List Char × List Char) :=
      match cs3 with
      | e :: rest =>
          if e = 'e' ∨ e = 'E' then
            let (expNeg, rest2) : Bool × List Char :=
              match rest with
              | '+' :: r => (false, r)
              | '-' :: r => (true, r)
              | _ => (false, rest)
            let (ds, rest3) := takeDigits rest2
            if ds = [] then none else some (expNeg, ds, rest3)
          else none
      | [] => some (false, [], [])
    match expPart with
    | none => none
    | some (expNeg, expDs, rest) =>
        if rest ≠ [] then none
        else some ⟨neg, digitsVal intDs, digitsVal fracDs, fracDs.length, expNeg, digitsVal expDs⟩

/-- Model of Python's `float(str)` as a rational. -/
def pyFloat (cs : List Char) : Option ℚ :=
  (pyFloatParts cs).map ratOfParts

/-! ### URL splitting (model of `urllib.parse.urlsplit` / `urlunsplit`)

`_sanitize_url_for_logs` delegates URL decomposition to the Python standard
library. The model below follows CPython's `urlsplit`: strip leading and
trailing C0-control/space characters, remove tab/CR/LF, split off a scheme
(`ALPHA *(ALPHA / DIGIT / "+" / "-" / ".")` before a `:`), a `//`-introduced
netloc (up to the first `/`, `?` or `#`, with the bracketed-host validation
that can raise `ValueError`), then fragment after the first `#` and query
after the first `?`. `_checknetloc` (which can only raise for certain
non-ASCII netlocs after NFKC normalization) is not modelled. -/

/-- The components returned by `urlsplit`. -/
structure SplitResult where
  scheme : List Char
  netloc : List Char
  path : List Char
  query : List Char
  fragment : List Char
deriving DecidableEq, Repr

/-- C0 control characters and space, stripped from both ends by `urlsplit`. -/
def isC0OrSpace (c : Char) : Bool :=
  c.toNat ≤ 32

/-- Tab, CR and LF are removed everywhere by `urlsplit`. -/
def isUnsafeUrlByte (c : Char) : Bool :=
  c = '\t' || c = '\r' || c = '\n'

/-- The pre-processing `urlsplit` applies to its input. -/
def preprocessUrl (cs : List Char) : List Char :=
  ((((cs.dropWhile isC0OrSpace).reverse).dropWhile isC0OrSpace).reverse).filter
    (fun c => !isUnsafeUrlByte c)

/-- ASCII letter test (`str.isascii() and str.isalpha()` on one char). -/
def isAsciiAlpha (c : Char) : Bool :=
  ('a' ≤ c && c ≤ 'z') || ('A' ≤ c && c ≤ 'Z')

/-- Characters allowed in a URL scheme. -/
def isSchemeChar (c : Char) : Bool :=
  isAsciiAlpha c || isDigitChar c || c = '+' || c = '-' || c = '.'

/-- ASCII lowercasing, as `str.lower` acts on scheme characters. -/
def lowerAscii (c : Char) : Char :=
  if 'A' ≤ c ∧ c ≤ 'Z' then Char.ofNat (c.toNat + 32) else c

/-- Split a scheme off the URL: a `:` at position `i > 0` whose prefix starts
with an ASCII letter and consists of scheme characters yields
`(lowercased prefix, rest)`; otherwise no scheme. -/
def splitScheme (cs : List Char) : List Char × List Char :=
  match cs.findIdx? (· = ':') with
  | none => ([], cs)
  | some i =>
      if 0 < i ∧ (cs.head?.map isAsciiAlpha = some true)
          ∧ (cs.take i).all isSchemeChar then
        ((cs.take i).map lowerAscii, cs.drop (i + 1))
      else ([], cs)

/-- `_splitnetloc`: the netloc runs to the first `/`, `?` or `#`. Input is
the URL after the leading `//`. -/
def splitNetloc (cs : List Char) : List Char × List Char :=
  (cs.takeWhile (fun c => !(c = '/' || c = '?' || c = '#')),
   cs.dropWhile (fun c => !(c = '/' || c = '?' || c = '#')))

/-- `netloc.partition('[')[2].partition(']')[0]`: the text between the first
`[` and the following `]`. -/
def bracketedHost (netloc : List Char) : List Char :=
  (((netloc.dropWhile (fun c => !(c = '['))).drop 1).takeWhile (fun c => !(c = ']')))

/-- `_check_bracketed_host`: `v`-prefixed hosts must match the IPvFuture
shape `v HEXDIG+ "." 1*` ; otherwise the host must be an IPv6 address
(`ipaddress.ip_address` accepts it and it is not IPv4). The full IPv6
grammar is approximated by `nonempty, contains a colon, all characters hex
digits, colons or dots`; this only affects which bracketed hosts parse, and
no claim depends on the exact set. -/
def checkBracketedHost (h : List Char) : Bool :=
  match h with
  | 'v' :: rest =>
      let hexs := rest.takeWhile isHexChar
      let after := rest.dropWhile isHexChar
      !hexs.isEmpty && (after.head? = some '.') && !(after.drop 1).isEmpty
  | _ => !h.isEmpty && h.contains ':' && h.all (fun c => isHexChar c || c = ':' || c = '.')

/-- Split at the first occurrence of `sep`: `(before, after)`, with
`after = []` when `sep` is absent (as `str.split(sep, 1)` combined with the
`in` guard behaves in `urlsplit`). -/
def splitOnce (sep : Char) (cs : List Char) : List Char × List Char :=
  (cs.takeWhile (· ≠ sep), (cs.dropWhile (· ≠ sep)).drop 1)

/-- Model of `urllib.parse.urlsplit`; `Except.error ()` models a raised
`ValueError`. -/
def urlsplitE (url : List Char) : Except Unit SplitResult :=
  let u0 := preprocessUrl url
  let (scheme, u1) := splitScheme u0
  let netlocPart : Except Unit (List Char × List Char) :=
    if u1.take 2 = ['/', '/'] then
      let (nl, rest) := splitNetloc (u1.drop 2)
      if (nl.contains '[') ≠ (nl.contains ']') then Except.error ()
      else if nl.contains '[' && nl.contains ']' then
        if checkBracketedHost (bracketedHost nl) then Except.ok (nl, rest)
        else Except.error ()
      else Except.ok (nl, rest)
    else Except.ok ([], u1)
  match netlocPart with
  | Except.error e => Except.error e
  | Except.ok (netloc, u2) =>
      let (u3, fragment) := splitOnce '#' u2
      let (path, query) := splitOnce '?' u3
      Except.ok ⟨scheme, netloc, path, query, fragment⟩

/-- Model of `urllib.parse.urlunsplit`. -/
def urlunsplit (p : SplitResult) : List Char :=
  let url0 := p.path
  let url1 :=
    if !p.netloc.isEmpty || (!url0.isEmpty && url0.take 2 = ['/', '/']) then
      let url' := if !url0.isEmpty && url0.head? ≠ some '/' then '/' :: url0 else url0
      '/' :: '/' :: p.netloc ++ url'
    else url0
  let url2 := if !p.scheme.isEmpty then p.scheme ++ ':' :: url1 else url1
  let url3 := if !p.query.isEmpty then url2 ++ '?' :: p.query else url2
  if !p.fragment.isEmpty then url3 ++ '#' :: p.fragment else url3

/-! ### `_sanitize_url_for_logs` -/

/-- The redaction step of `_sanitize_url_for_logs`: if `"webhooks"` occurs
among the `/`-separated path segments and at least two further segments
follow it, replace the second one after it (the token) with `<redacted>`. -/
def sanitizeRedact (pathParts : List (List Char)) : List (List Char) :=
  if "webhooks".data ∈ pathParts then
    let i := pathParts.indexOf "webhooks".data
    if pathParts.length > i + 2 then pathParts.set (i + 2) "<redacted>".data
    else pathParts
  else pathParts

/-- The body of `_sanitize_url_for_logs`'s `try` block: split the URL,
redact the webhook token segment if present, rejoin. `Except.error ()`
models an exception escaping the block. -/
def sanitizeCore (url : List Char) : Except Unit (List Char) :=
  match urlsplitE url with
  | Except.error e => Except.error e
  | Except.ok parts =>
      let pathParts := parts.path.splitOn '/'
      let safePath := List.intercalate ['/'] (sanitizeRedact pathParts)
      Except.ok (urlunsplit ⟨parts.scheme, parts.netloc, safePath, parts.query, parts.fragment⟩)

/-- `_sanitize_url_for_logs`: any failure inside the `try` block yields the
fixed marker `<unavailable>`. -/
def sanitizeUrlForLogs (url : List Char) : List Char :=
  match sanitizeCore url with
  | Except.ok s => s
  | Except.error _ => "<unavailable>".data

/-! ### Rate-limit parsing (`_parse_rate_limit_info`) -/

/-- The response headers `_parse_rate_limit_info` reads (each
`headers.get(...)` call modelled by one field; `none` = header absent). -/
structure Headers where
  retryAfter : Option (List Char)
  xRateLimitResetAfter : Option (List Char)
  xRateLimitBucket : Option (List Char)
  xRateLimitRemaining : Option (List Char)
deriving DecidableEq, Repr

/-- The `DiscordRateLimitInfo` dataclass. -/
structure DiscordRateLimitInfo where
  retry_after : ℚ
  is_global : Bool
  bucket : Option (List Char)
  remaining : Option (List Char)
  reset_after : Option (List Char)
deriving DecidableEq, Repr

/-- The body-inspection block of `_parse_rate_limit_info`: parse the body as
JSON, read `retry_after` (converted by `float()` when it is an int, float,
bool — a bool is an int in Python — or str) and the truthiness of `global`.
Any exception inside the block (non-JSON body, non-dict top level, or a
`float()` failure on a string value) is swallowed, leaving `(none, false)`;
note that a `float()` failure also skips the `global` line, while a
`retry_after` value of unconvertible type leaves `retry_after` unset but
still reads `global`. -/
def bodyRateInfo (body : List Char) : Option ℚ × Bool :=
  if body.isEmpty then (none, false)
  else
    match loads body with
    | none => (none, false)
    | some (Json.obj fields) =>
        let isg := jsonTruthy ((lookupLast fields "global".data).getD (Json.bool false))
        match lookupLast fields "retry_after".data with
        | some (Json.num q) => (some q, isg)
        | some (Json.bool b) => (some (if b then 1 else 0), isg)
        | some (Json.str s) =>
            match pyFloat s with
            | some q => (some q, isg)
            | none => (none, false)
        | _ => (none, isg)
    | some _ => (none, false)

/-- `_parse_rate_limit_info`: `None` unless the status is 429; retry delay
from the body's `retry_after` field, else the `Retry-After` header, else the
`X-RateLimit-Reset-After` header (header values through `float()` with
`ValueError` giving up that level); `None` when all three fail. -/
def parseRateLimitInfo (code : Nat) (headers : Headers) (body : List Char) :
    Option DiscordRateLimitInfo :=
  if code ≠ 429 then none
  else
    let (ra0, isGlobal) := bodyRateInfo body
    let ra1 : Option ℚ :=
      match ra0 with
      | some q => some q
      | none =>
          match headers.retryAfter with
          | some h => pyFloat h
          | none => none
    let ra2 : Option ℚ :=
      match ra1 with
      | some q => some q
      | none =>
          match headers.xRateLimitResetAfter with
          | some h => pyFloat h
          | none => none
    match ra2 with
    | none => none
    | some ra =>
        some ⟨ra, isGlobal, headers.xRateLimitBucket, headers.xRateLimitRemaining,
          headers.xRateLimitResetAfter⟩

/-! ### `post_json` -/

/-- The slice of a `urllib.request.Request` that `post_json` touches: its
URL and its (mutable) `data` attribute. -/
structure Request where
  fullUrl : List Char
  data : Option (List Char)
deriving DecidableEq, Repr

/-- What one `urlopen` attempt yields: a success body (status < 400), an
`HTTPError` (status, headers, body as read by `_read_http_body`), or a
transport-level `URLError` carrying its display text `str(e)`. -/
inductive HttpOutcome where
  | success (body : List Char) : HttpOutcome
  | httpError (code : Nat) (headers : Headers) (body : List Char) : HttpOutcome
  | urlError (reason : List Char) : HttpOutcome

/-- How a `post_json` call can raise: `discordHTTP` is the
`DiscordHTTPError` raised in both `except` branches; `jsonDecode` is the
`json.JSONDecodeError` escaping from `json.loads` on a non-JSON success
body (caught by neither `except` clause). -/
inductive PostError where
  | discordHTTP (msg : List Char) : PostError
  | jsonDecode (body : List Char) : PostError

/-- Python `str()` of a bool, as interpolated into the context string. -/
def boolStr (b : Bool) : List Char :=
  if b then "True".data else "False".data

/-- The `context_bits` list built before raising `DiscordHTTPError`: the
sanitized URL always, then the rate-limit diagnostics when available. -/
def errorContextBits (url : List Char) (rl : Option DiscordRateLimitInfo) :
    List (List Char) :=
  ("url=".data ++ sanitizeUrlForLogs url) ::
    (match rl with
     | none => []
     | some r =>
         ("rate_limit_global=".data ++ boolStr r.is_global) ::
           ((match r.bucket with
             | some b => [("rate_limit_bucket=".data ++ b)]
             | none => []) ++
            (match r.remaining with
             | some m => [("rate_limit_remaining=".data ++ m)]
             | none => []) ++
            (match r.reset_after with
             | some x => [("rate_limit_reset_after=".data ++ x)]
             | none => [])))

/-- The `DiscordHTTPError` message for an HTTP failure: status code,
space-joined context, and the first 500 characters of the body when
non-empty. -/
def httpErrorMessage (code : Nat) (url : List Char) (rl : Option DiscordRateLimitInfo)
    (body : List Char) : List Char :=
  let bits := errorContextBits url rl
  let context := if bits.isEmpty then [] else ' ' :: List.intercalate [' '] bits
  let msg := "HTTP request failed (HTTP ".data ++ natDigits code ++ ").".data ++ context
  if body.isEmpty then msg else msg ++ " Response: ".data ++ body.take 500

/-- The `DiscordHTTPError` message for a transport failure,
`f"HTTP request failed ({e})."`. -/
def transportErrorMessage (reason : List Char) : List Char :=
  "HTTP request failed (".data ++ reason ++ ").".data

/-- The success branch of an attempt: empty body returns Python `None`
(`ok none`); otherwise `json.loads` either returns the parsed value or
raises `json.JSONDecodeError` out of `post_json`. -/
def successResult (body : List Char) : Except PostError (Option Json) :=
  if body.isEmpty then Except.ok none
  else
    match loads body with
    | some j => Except.ok (some j)
    | none => Except.error (PostError.jsonDecode body)

/-- Observable trace of one `post_json` call: its outcome, how many
attempts ran, the durations passed to `time.sleep`, and the request body
transmitted on each attempt. -/
structure RunResult where
  result : Except PostError (Option Json)
  attempts : Nat
  sleeps : List ℚ
  sentBodies : List (List Char)

/-- The `while True` retry loop of `post_json`, from attempt number
`attempt` on (the counter is incremented before each try, so the first call
is at `attempt = 1`). `outcomes n` is what the transport returns for attempt
`n`; `draws n` is the value `random.uniform(0.0, jitter_s)` would produce on
attempt `n`. A retry happens exactly when the attempt hit an `HTTPError`
whose rate-limit info parsed and `attempt ≤ maxRetries`; everything else
returns or raises at once. -/
def postJsonLoop (outcomes : Nat → HttpOutcome) (draws : Nat → ℚ) (maxRetries : Nat)
    (maxRetryAfter jitter : ℚ) (url data : List Char) (attempt : Nat) : RunResult :=
  match outcomes attempt with
  | HttpOutcome.success body => ⟨successResult body, 1, [], [data]⟩
  | HttpOutcome.urlError reason =>
      ⟨Except.error (PostError.discordHTTP (transportErrorMessage reason)), 1, [], [data]⟩
  | HttpOutcome.httpError code headers body =>
      match parseRateLimitInfo code headers body with
      | some rl =>
          if _h : attempt ≤ maxRetries then
            let sleep := min (max 0 rl.retry_after) maxRetryAfter
              + (if jitter > 0 then draws attempt else 0)
            let rest := postJsonLoop outcomes draws maxRetries maxRetryAfter jitter url data
              (attempt + 1)
            ⟨rest.result, rest.attempts + 1, sleep :: rest.sleeps, data :: rest.sentBodies⟩
          else
            ⟨Except.error (PostError.discordHTTP (httpErrorMessage code url (some rl) body)),
              1, [], [data]⟩
      | none =>
          ⟨Except.error (PostError.discordHTTP (httpErrorMessage code url none body)),
            1, [], [data]⟩
termination_by maxRetries + 1 - attempt
decreasing_by omega

/-- Everything observable about one `post_json` call. `finalRequest` is the
state of the caller's request object when the call returns or raises: its
`data` attribute was assigned the serialized payload before the first
attempt (line `request.data = data`). -/
structure PostOutcome where
  run : RunResult
  finalRequest : Request

/-- `post_json`: serialize the payload once, store it on the request, then
run the retry loop starting at attempt 1. The `timeout_s` parameter only
feeds the opaque transport and is part of `outcomes` here. -/
def postJson (request : Request) (payload : Json) (maxRetries : Nat)
    (maxRetryAfter jitter : ℚ) (outcomes : Nat → HttpOutcome) (draws : Nat → ℚ) :
    PostOutcome :=
  let data := dumps payload
  ⟨postJsonLoop outcomes draws maxRetries maxRetryAfter jitter request.fullUrl data 1,
   { request with data := some data }⟩

/-! ### Step lemmas for the retry loop -/

theorem postJsonLoop_success {o : Nat → HttpOutcome} {a : Nat} {b : List Char}
    (d : Nat → ℚ) (mr : Nat) (mra j : ℚ) (url data : List Char)
    (h : o a = HttpOutcome.success b) :
    postJsonLoop o d mr mra j url data a = ⟨successResult b, 1, [], [data]⟩ := by
  rw [postJsonLoop, h]

theorem postJsonLoop_urlError {o : Nat → HttpOutcome} {a : Nat} {r : List Char}
    (d : Nat → ℚ) (mr : Nat) (mra j : ℚ) (url data : List Char)
    (h : o a = HttpOutcome.urlError r) :
    postJsonLoop o d mr mra j url data a
      = ⟨Except.error (PostError.discordHTTP (transportErrorMessage r)), 1, [], [data]⟩ := by
  rw [postJsonLoop, h]

theorem postJsonLoop_noInfo {o : Nat → HttpOutcome} {a : Nat} {c : Nat} {hd : Headers}
    {b : List Char} (d : Nat → ℚ) (mr : Nat) (mra j : ℚ) (url data : List Char)
    (h : o a = HttpOutcome.httpError c hd b) (hrl : parseRateLimitInfo c hd b = none) :
    postJsonLoop o d mr mra j url data a
      = ⟨Except.error (PostError.discordHTTP (httpErrorMessage c url none b)), 1, [], [data]⟩ := by
  rw [postJsonLoop, h]
  simp [hrl]

theorem postJsonLoop_exhausted {o : Nat → HttpOutcome} {a : Nat} {c : Nat} {hd : Headers}
    {b : List Char} {rl : DiscordRateLimitInfo}
    (d : Nat → ℚ) (mr : Nat) (mra j : ℚ) (url data : List Char)
    (h : o a = HttpOutcome.httpError c hd b) (hrl : parseRateLimitInfo c hd b = some rl)
    (ha : ¬ a ≤ mr) :
    postJsonLoop o d mr mra j url data a
      = ⟨Except.error (PostError.discordHTTP (httpErrorMessage c url (some rl) b)),
          1, [], [data]⟩ := by
  rw [postJsonLoop, h]
  simp [hrl, ha]

theorem postJsonLoop_retry {o : Nat → HttpOutcome} {a : Nat} {c : Nat} {hd : Headers}
    {b : List Char} {rl : DiscordRateLimitInfo}
    (d : Nat → ℚ) (mr : Nat) (mra j : ℚ) (url data : List Char)
    (h : o a = HttpOutcome.httpError c hd b) (hrl : parseRateLimitInfo c hd b = some rl)
    (ha : a ≤ mr) :
    postJsonLoop o d mr mra j url data a
      = ⟨(postJsonLoop o d mr mra j url data (a + 1)).result,
          (postJsonLoop o d mr mra j url data (a + 1)).attempts + 1,
          (min (max 0 rl.retry_after) mra + (if j > 0 then d a else 0))
            :: (postJsonLoop o d mr mra j url data (a + 1)).sleeps,
          data :: (postJsonLoop o d mr mra j url data (a + 1)).sentBodies⟩ := by
  rw [postJsonLoop, h]
  simp [hrl, ha]

/-! ### Concrete fixtures used by witnesses and counterexamples -/

/-- Headers with none of the rate-limit fields set. -/
def hdrNone : Headers := ⟨none, none, none, none⟩

/-- A Discord 429 body: `{"retry_after": 0.5, "global": true}`. -/
def body429 : List Char := "\x7b\"retry_after\": 0.5, \"global\": true\x7d".data

/-- The rate-limit info `_parse_rate_limit_info` extracts from `body429`
with no headers set. -/
def rl429 : DiscordRateLimitInfo :=
  ⟨ratOfParts ⟨false, 0, 5, 1, false, 0⟩, true, none, none, none⟩

/-- The webhook endpoint of the spec's redaction example. -/
def webhookUrl : List Char := "https://host/api/webhooks/123/SECRETTOKEN".data

/-- A request aimed at `webhookUrl`, `data` not yet set. -/
def reqW : Request := ⟨webhookUrl, none⟩

/-- A minimal message payload. -/
def payloadHi : Json := Json.obj [("content".data, Json.str "hi".data)]

/-- An environment answering every attempt with the 429 above. -/
def out429 : Nat → HttpOutcome := fun _ => HttpOutcome.httpError 429 hdrNone body429

/-- Jitter draws that are always zero. -/
def draws0 : Nat → ℚ := fun _ => 0

theorem rl429_spec : parseRateLimitInfo 429 hdrNone body429 = some rl429 := rfl

/-! ### Claim theorems -/

/-- C1, counterexample: on a status < 400 response whose body is `not json`,
`post_json` does not return a raw-text fallback structure `{"raw": <text>}`;
the `json.JSONDecodeError` from `json.loads` propagates out instead (it is
caught by neither `except` clause). -/
theorem c1_counterexample :
    (postJson reqW payloadHi 3 60 (1/4)
        (fun _ => HttpOutcome.success "not json".data) draws0).run.result
      = Except.error (PostError.jsonDecode "not json".data)
    ∧ (postJson reqW payloadHi 3 60 (1/4)
        (fun _ => HttpOutcome.success "not json".data) draws0).run.result
      ≠ Except.ok (some (Json.obj [("raw".data, Json.str "not json".data)])) := by
  have e : (postJson reqW payloadHi 3 60 (1/4)
      (fun _ => HttpOutcome.success "not json".data) draws0).run
      = postJsonLoop (fun _ => HttpOutcome.success "not json".data) draws0 3 60 (1/4)
          reqW.fullUrl (dumps payloadHi) 1 := rfl
  rw [e, postJsonLoop_success draws0 3 60 (1/4) reqW.fullUrl (dumps payloadHi) rfl]
  refine ⟨by rfl, ?_⟩
  rw [show successResult "not json".data
      = Except.error (PostError.jsonDecode "not json".data) from rfl]
  simp

/-- C1, amended: for every status < 400 response, `post_json` returns Python
`None` when the body is empty and the parsed JSON value when the body parses;
on any other body it raises `json.JSONDecodeError` (there is no raw-text
fallback wrapper in the code). -/
theorem c1_success_result (o : Nat → HttpOutcome) (d : Nat → ℚ) (request : Request)
    (payload : Json) (mr : Nat) (mra j : ℚ) (body : List Char)
    (h : o 1 = HttpOutcome.success body) :
    (body = [] → (postJson request payload mr mra j o d).run.result = Except.ok none)
    ∧ (∀ jv, loads body = some jv →
        (postJson request payload mr mra j o d).run.result = Except.ok (some jv))
    ∧ (body ≠ [] → loads body = none →
        (postJson request payload mr mra j o d).run.result
          = Except.error (PostError.jsonDecode body)) := by
  have e : (postJson request payload mr mra j o d).run
      = postJsonLoop o d mr mra j request.fullUrl (dumps payload) 1 := rfl
  rw [e, postJsonLoop_success d mr mra j request.fullUrl (dumps payload) h]
  refine ⟨?_, ?_, ?_⟩
  · intro hb
    subst hb
    rfl
  · intro jv hj
    have hb : body.isEmpty = false := by
      cases body with
      | nil => exact Option.noConfusion ((rfl : loads [] = none).symm.trans hj)
      | cons x xs => rfl
    simp [successResult, hb, hj]
  · intro hb hj
    have hb' : body.isEmpty = false := by
      cases body with
      | nil => exact absurd rfl hb
      | cons x xs => rfl
    simp [successResult, hb', hj]

/-- C1, witness for the amended theorem at a concrete JSON body. -/
theorem c1_witness :
    (postJson reqW payloadHi 3 60 (1/4)
        (fun _ => HttpOutcome.success "[]".data) draws0).run.result
      = Except.ok (some (Json.arr [])) :=
  (c1_success_result (fun _ => HttpOutcome.success "[]".data) draws0 reqW payloadHi
    3 60 (1/4) "[]".data rfl).2.1 (Json.arr []) (by rfl)

/-- C6: the only retried failure is a 429 carrying retry information. A
transport-level `URLError` raises immediately on whatever attempt it occurs,
and an `HTTPError` whose status is not 429 (or whose rate-limit info cannot
be determined) terminates the call at that attempt with a
`DiscordHTTPError`, performing no sleep. -/
theorem c6_no_retry_except_429 (o : Nat → HttpOutcome) (d : Nat → ℚ) (mr : Nat)
    (mra j : ℚ) (url data : List Char) (a : Nat) (reason : List Char) (c : Nat)
    (hd : Headers) (b : List Char)
    (h : o a = HttpOutcome.urlError reason
        ∨ (o a = HttpOutcome.httpError c hd b
            ∧ (c ≠ 429 ∨ parseRateLimitInfo c hd b = none))) :
    (postJsonLoop o d mr mra j url data a).attempts = 1
    ∧ (postJsonLoop o d mr mra j url data a).sleeps = []
    ∧ ∃ m, (postJsonLoop o d mr mra j url data a).result
        = Except.error (PostError.discordHTTP m) := by
  rcases h with h | ⟨h, hc⟩
  · rw [postJsonLoop_urlError d mr mra j url data h]
    exact ⟨rfl, rfl, _, rfl⟩
  · have hrl : parseRateLimitInfo c hd b = none := by
      rcases hc with hc | hc
      · simp [parseRateLimitInfo, hc]
      · exact hc
    rw [postJsonLoop_noInfo d mr mra j url data h hrl]
    exact ⟨rfl, rfl, _, rfl⟩

/-- C6, witness: a 500 response on the first attempt terminates at once with
one attempt and no sleep. -/
theorem c6_witness :
    (postJsonLoop (fun _ => HttpOutcome.httpError 500 hdrNone "oops".data) draws0
        3 60 (1/4) webhookUrl (dumps payloadHi) 1).attempts = 1
    ∧ (postJsonLoop (fun _ => HttpOutcome.httpError 500 hdrNone "oops".data) draws0
        3 60 (1/4) webhookUrl (dumps payloadHi) 1).sleeps = []
    ∧ ∃ m, (postJsonLoop (fun _ => HttpOutcome.httpError 500 hdrNone "oops".data) draws0
        3 60 (1/4) webhookUrl (dumps payloadHi) 1).result
        = Except.error (PostError.discordHTTP m) :=
  c6_no_retry_except_429 (fun _ => HttpOutcome.httpError 500 hdrNone "oops".data)
    draws0 3 60 (1/4) webhookUrl (dumps payloadHi) 1 [] 500 hdrNone "oops".data
    (Or.inr ⟨rfl, Or.inl (by decide)⟩)

/-- C7, counterexample: `post_json` mutates the caller's request object —
after a call, its `data` attribute holds the serialized payload (line
`request.data = data`), so the request passed in is not left unchanged. -/
theorem c7_counterexample :
    (postJson reqW payloadHi 3 60 (1/4)
        (fun _ => HttpOutcome.success []) draws0).finalRequest ≠ reqW := by
  decide

/-- C7, amended: besides network I/O and sleep, the only caller-visible
mutation `post_json` performs is setting the request object's `data`
attribute to the serialized payload, before the first attempt; the URL and
the payload value itself are untouched. -/
theorem c7_request_mutation (request : Request) (payload : Json) (mr : Nat)
    (mra j : ℚ) (o : Nat → HttpOutcome) (d : Nat → ℚ) :
    (postJson request payload mr mra j o d).finalRequest
      = { request with data := some (dumps payload) } := rfl

/-- C8: the payload is serialized once, before the first attempt, and every
attempt of a call transmits that same byte sequence: the list of per-attempt
request bodies is the serialized payload repeated once per attempt. -/
theorem c8_same_body_every_attempt (request : Request) (payload : Json) (mr : Nat)
    (mra j : ℚ) (o : Nat → HttpOutcome) (d : Nat → ℚ) :
    (postJson request payload mr mra j o d).run.sentBodies
      = List.replicate (postJson request payload mr mra j o d).run.attempts
          (dumps payload) := by
  have key : ∀ k a, mr + 1 - a ≤ k →
      (postJsonLoop o d mr mra j request.fullUrl (dumps payload) a).sentBodies
        = List.replicate
            (postJsonLoop o d mr mra j request.fullUrl (dumps payload) a).attempts
            (dumps payload) := by
    intro k
    induction k with
    | zero =>
        intro a ha
        have hgt : ¬ a ≤ mr := by omega
        cases h : o a with
        | success b => rw [postJsonLoop_success d mr mra j _ _ h]; rfl
        | urlError r => rw [postJsonLoop_urlError d mr mra j _ _ h]; rfl
        | httpError c hd b =>
            cases hrl : parseRateLimitInfo c hd b with
            | none => rw [postJsonLoop_noInfo d mr mra j _ _ h hrl]; rfl
            | some rl => rw [postJsonLoop_exhausted d mr mra j _ _ h hrl hgt]; rfl
    | succ k ih =>
        intro a ha
        cases h : o a with
        | success b => rw [postJsonLoop_success d mr mra j _ _ h]; rfl
        | urlError r => rw [postJsonLoop_urlError d mr mra j _ _ h]; rfl
        | httpError c hd b =>
            cases hrl : parseRateLimitInfo c hd b with
            | none => rw [postJsonLoop_noInfo d mr mra j _ _ h hrl]; rfl
            | some rl =>
                by_cases ha2 : a ≤ mr
                · rw [postJsonLoop_retry d mr mra j _ _ h hrl ha2]
                  have := ih (a + 1) (by omega)
                  simp [this, List.replicate_succ]
                · rw [postJsonLoop_exhausted d mr mra j _ _ h hrl ha2]; rfl
  exact key (mr + 1 - 1) 1 (le_refl _)

/-- C9: `_sanitize_url_for_logs` is total on strings: either the `try` block
succeeds and its result is returned, or the block fails and the fixed marker
`<unavailable>` is returned instead of propagating the exception. -/
theorem c9_sanitize_never_raises (url : List Char) :
    (∃ s, sanitizeCore url = Except.ok s ∧ sanitizeUrlForLogs url = s)
    ∨ (sanitizeCore url = Except.error ()
        ∧ sanitizeUrlForLogs url = "<unavailable>".data) := by
  cases h : sanitizeCore url with
  | ok s => exact Or.inl ⟨s, rfl, by simp [sanitizeUrlForLogs, h]⟩
  | error e =>
      cases e
      exact Or.inr ⟨rfl, by simp [sanitizeUrlForLogs, h]⟩

/-- C10: redaction applies only to the path segment two positions after a
`webhooks` segment: when the split path has no `webhooks` segment with at
least two segments after it, `_sanitize_url_for_logs` rebuilds the URL from
its components with path, query and fragment unchanged — in particular a
secret in the query string or in any other path position is not redacted. -/
theorem c10_no_redaction_without_webhooks (url : List Char) (parts : SplitResult)
    (hp : urlsplitE url = Except.ok parts)
    (hno : ¬ ("webhooks".data ∈ parts.path.splitOn '/'
        ∧ (parts.path.splitOn '/').length
            > (parts.path.splitOn '/').indexOf "webhooks".data + 2)) :
    sanitizeUrlForLogs url = urlunsplit parts := by
  have hred : sanitizeRedact (parts.path.splitOn '/') = parts.path.splitOn '/' := by
    unfold sanitizeRedact
    by_cases hmem : "webhooks".data ∈ parts.path.splitOn '/'
    · have hlen : ¬ ((parts.path.splitOn '/').length
          > (parts.path.splitOn '/').indexOf "webhooks".data + 2) := fun hl => hno ⟨hmem, hl⟩
      simp [hmem, hlen]
    · simp [hmem]
  unfold sanitizeUrlForLogs sanitizeCore
  rw [hp]
  simp only [hred, List.intercalate_splitOn]

/-- C10, witness: a URL with secrets in a non-webhook path and in the query
string passes through the sanitizer unredacted. -/
theorem c10_witness :
    sanitizeUrlForLogs "https://host/api/other/123/SECRET?token=SECRET".data
      = urlunsplit ⟨"https".data, "host".data, "/api/other/123/SECRET".data,
          "token=SECRET".data, []⟩ :=
  c10_no_redaction_without_webhooks
    "https://host/api/other/123/SECRET?token=SECRET".data
    ⟨"https".data, "host".data, "/api/other/123/SECRET".data, "token=SECRET".data, []⟩
    (by rfl) (by decide)

/-- C2: on a 429, the retry delay is taken from (a) the `retry_after` field
of the JSON body, else (b) the `Retry-After` header, else (c) the
`X-RateLimit-Reset-After` header, an absent or unparseable value falling
through to the next level; when all three fail, `_parse_rate_limit_info`
returns `None` and `post_json` raises at that attempt, regardless of how
many retries remain. -/
theorem c2_rate_limit_priority (c : Nat) (hd : Headers) (body : List Char)
    (hc : c = 429) :
    (∀ q, (bodyRateInfo body).1 = some q →
        ∃ i, parseRateLimitInfo c hd body = some i ∧ i.retry_after = q)
    ∧ ((bodyRateInfo body).1 = none → ∀ s q, hd.retryAfter = some s →
        pyFloat s = some q →
        ∃ i, parseRateLimitInfo c hd body = some i ∧ i.retry_after = q)
    ∧ ((bodyRateInfo body).1 = none → hd.retryAfter.bind pyFloat = none →
        ∀ s q, hd.xRateLimitResetAfter = some s → pyFloat s = some q →
        ∃ i, parseRateLimitInfo c hd body = some i ∧ i.retry_after = q)
    ∧ ((bodyRateInfo body).1 = none → hd.retryAfter.bind pyFloat = none →
        hd.xRateLimitResetAfter.bind pyFloat = none →
        parseRateLimitInfo c hd body = none)
    ∧ (parseRateLimitInfo c hd body = none →
        ∀ (o : Nat → HttpOutcome) (d : Nat → ℚ) (mr : Nat) (mra j : ℚ)
          (url data : List Char) (a : Nat),
          o a = HttpOutcome.httpError c hd body →
          (postJsonLoop o d mr mra j url data a).attempts = 1
          ∧ ∃ m, (postJsonLoop o d mr mra j url data a).result
              = Except.error (PostError.discordHTTP m)) := by
  subst hc
  rcases hbi : bodyRateInfo body with ⟨ra0, isg⟩
  refine ⟨?_, ?_, ?_, ?_, ?_⟩
  · intro q hq
    simp only at hq
    subst hq
    exact ⟨⟨q, isg, hd.xRateLimitBucket, hd.xRateLimitRemaining, hd.xRateLimitResetAfter⟩,
      by simp [parseRateLimitInfo, hbi], rfl⟩
  · intro h0 s q hs hq
    simp only at h0
    subst h0
    exact ⟨⟨q, isg, hd.xRateLimitBucket, hd.xRateLimitRemaining, hd.xRateLimitResetAfter⟩,
      by simp [parseRateLimitInfo, hbi, hs, hq], rfl⟩
  · intro h0 h1 s q hs hq
    simp only at h0
    subst h0
    cases hra : hd.retryAfter with
    | none =>
        exact ⟨⟨q, isg, hd.xRateLimitBucket, hd.xRateLimitRemaining, hd.xRateLimitResetAfter⟩,
          by simp [parseRateLimitInfo, hbi, hra, hs, hq], rfl⟩
    | some s1 =>
        rw [hra] at h1
        have h1' : pyFloat s1 = none := h1
        exact ⟨⟨q, isg, hd.xRateLimitBucket, hd.xRateLimitRemaining, hd.xRateLimitResetAfter⟩,
          by simp [parseRateLimitInfo, hbi, hra, h1', hs, hq], rfl⟩
  · intro h0 h1 h2
    simp only at h0
    subst h0
    cases hra : hd.retryAfter with
    | none =>
        cases hxa : hd.xRateLimitResetAfter with
        | none => simp [parseRateLimitInfo, hbi, hra, hxa]
        | some s2 =>
            rw [hxa] at h2
            have h2' : pyFloat s2 = none := h2
            simp [parseRateLimitInfo, hbi, hra, hxa, h2']
    | some s1 =>
        rw [hra] at h1
        have h1' : pyFloat s1 = none := h1
        cases hxa : hd.xRateLimitResetAfter with
        | none => simp [parseRateLimitInfo, hbi, hra, hxa, h1']
        | some s2 =>
            rw [hxa] at h2
            have h2' : pyFloat s2 = none := h2
            simp [parseRateLimitInfo, hbi, hra, hxa, h1', h2']
  · intro hnone o d mr mra j url data a ho
    rw [postJsonLoop_noInfo d mr mra j url data ho hnone]
    exact ⟨rfl, _, rfl⟩

/-- C2, witness: the `retry_after` field of the body takes priority. -/
theorem c2_witness :
    ∃ i, parseRateLimitInfo 429 hdrNone body429 = some i
      ∧ i.retry_after = ratOfParts ⟨false, 0, 5, 1, false, 0⟩ :=
  (c2_rate_limit_priority 429 hdrNone body429 rfl).1
    (ratOfParts ⟨false, 0, 5, 1, false, 0⟩) (by rfl)

/-- C3: when every attempt gets a 429 carrying retry information, the call
performs exactly `max_retries + 1` attempts (the counter increments before
each try, the first included) and then raises a `DiscordHTTPError` — the
code's realization of the spec's `RetryExhaustedError` — built from the last
attempt's diagnostic context. -/
theorem c3_retry_exhausted (request : Request) (payload : Json) (mr : Nat)
    (mra j : ℚ) (o : Nat → HttpOutcome) (d : Nat → ℚ)
    (hall : ∀ n, 1 ≤ n → n ≤ mr + 1 →
        ∃ c hh b, o n = HttpOutcome.httpError c hh b
          ∧ (parseRateLimitInfo c hh b).isSome = true) :
    (postJson request payload mr mra j o d).run.attempts = mr + 1
    ∧ ∃ c hh b rl, o (mr + 1) = HttpOutcome.httpError c hh b
        ∧ parseRateLimitInfo c hh b = some rl
        ∧ (postJson request payload mr mra j o d).run.result
          = Except.error (PostError.discordHTTP
              (httpErrorMessage c request.fullUrl (some rl) b)) := by
  have key : ∀ k a, 1 ≤ a → a + k = mr + 1 →
      (postJsonLoop o d mr mra j request.fullUrl (dumps payload) a).attempts = k + 1
      ∧ ∃ c hh b rl, o (mr + 1) = HttpOutcome.httpError c hh b
          ∧ parseRateLimitInfo c hh b = some rl
          ∧ (postJsonLoop o d mr mra j request.fullUrl (dumps payload) a).result
            = Except.error (PostError.discordHTTP
                (httpErrorMessage c request.fullUrl (some rl) b)) := by
    intro k
    induction k with
    | zero =>
        intro a ha1 hak
        have ha : a = mr + 1 := by omega
        subst ha
        obtain ⟨c, hh, b, ho, hsome⟩ := hall (mr + 1) (by omega) (le_refl _)
        obtain ⟨rl, hrl⟩ := Option.isSome_iff_exists.mp hsome
        rw [postJsonLoop_exhausted d mr mra j _ _ ho hrl (by omega)]
        exact ⟨rfl, c, hh, b, rl, ho, hrl, rfl⟩
    | succ k ih =>
        intro a ha1 hak
        obtain ⟨c, hh, b, ho, hsome⟩ := hall a ha1 (by omega)
        obtain ⟨rl, hrl⟩ := Option.isSome_iff_exists.mp hsome
        rw [postJsonLoop_retry d mr mra j _ _ ho hrl (by omega)]
        obtain ⟨iha, ihr⟩ := ih (a + 1) (by omega) (by omega)
        exact ⟨by simpa using iha, by simpa using ihr⟩
  exact key mr 1 (le_refl _) (by omega)

/-- C3, witness: with `max_retries = 3` and every attempt rate-limited,
exactly 4 attempts happen and the call raises with the last context. -/
theorem c3_witness :
    (postJson reqW payloadHi 3 60 (1/4) out429 draws0).run.attempts = 3 + 1
    ∧ ∃ c hh b rl, out429 (3 + 1) = HttpOutcome.httpError c hh b
        ∧ parseRateLimitInfo c hh b = some rl
        ∧ (postJson reqW payloadHi 3 60 (1/4) out429 draws0).run.result
          = Except.error (PostError.discordHTTP
              (httpErrorMessage c reqW.fullUrl (some rl) b)) :=
  c3_retry_exhausted reqW payloadHi 3 60 (1/4) out429 draws0
    (fun _ _ _ => ⟨429, hdrNone, body429, rfl, by rfl⟩)

/-- C4: each retry sleep equals `min(max(0, retry_after), max_retry_after)`
plus a jitter draw in `[0, jitter]` (added only when `jitter > 0`), so every
duration passed to `time.sleep` lies between the clamped server delay and
that value plus `jitter`: negative delays are clamped to 0 and no sleep can
exceed `max_retry_after + jitter`. -/
theorem c4_sleep_bounds (request : Request) (payload : Json) (mr : Nat)
    (mra j : ℚ) (o : Nat → HttpOutcome) (d : Nat → ℚ)
    (hdraw : ∀ n, 0 ≤ d n ∧ d n ≤ j) :
    ∀ s ∈ (postJson request payload mr mra j o d).run.sleeps,
      ∃ n c hh b rl, o n = HttpOutcome.httpError c hh b
        ∧ parseRateLimitInfo c hh b = some rl
        ∧ s = min (max 0 rl.retry_after) mra + (if j > 0 then d n else 0)
        ∧ min (max 0 rl.retry_after) mra ≤ s
        ∧ s ≤ min (max 0 rl.retry_after) mra + j := by
  have hj : 0 ≤ j := le_trans (hdraw 0).1 (hdraw 0).2
  have key : ∀ k a, mr + 1 - a ≤ k →
      ∀ s ∈ (postJsonLoop o d mr mra j request.fullUrl (dumps payload) a).sleeps,
        ∃ n c hh b rl, o n = HttpOutcome.httpError c hh b
          ∧ parseRateLimitInfo c hh b = some rl
          ∧ s = min (max 0 rl.retry_after) mra + (if j > 0 then d n else 0)
          ∧ min (max 0 rl.retry_after) mra ≤ s
          ∧ s ≤ min (max 0 rl.retry_after) mra + j := by
    intro k
    induction k with
    | zero =>
        intro a ha s hs
        have hgt : ¬ a ≤ mr := by omega
        cases h : o a with
        | success b => rw [postJsonLoop_success d mr mra j _ _ h] at hs; cases hs
        | urlError r => rw [postJsonLoop_urlError d mr mra j _ _ h] at hs; cases hs
        | httpError c hh b =>
            cases hrl : parseRateLimitInfo c hh b with
            | none => rw [postJsonLoop_noInfo d mr mra j _ _ h hrl] at hs; cases hs
            | some rl =>
                rw [postJsonLoop_exhausted d mr mra j _ _ h hrl hgt] at hs
                cases hs
    | succ k ih =>
        intro a ha s hs
        cases h : o a with
        | success b => rw [postJsonLoop_success d mr mra j _ _ h] at hs; cases hs
        | urlError r => rw [postJsonLoop_urlError d mr mra j _ _ h] at hs; cases hs
        | httpError c hh b =>
            cases hrl : parseRateLimitInfo c hh b with
            | none => rw [postJsonLoop_noInfo d mr mra j _ _ h hrl] at hs; cases hs
            | some rl =>
                by_cases ha2 : a ≤ mr
                · rw [postJsonLoop_retry d mr mra j _ _ h hrl ha2] at hs
                  simp only [List.mem_cons] at hs
                  rcases hs with hs | hs
                  · refine ⟨a, c, hh, b, rl, h, hrl, hs, ?_, ?_⟩
                    · by_cases hjp : j > 0
                      · simp only [hs, if_pos hjp]
                        have := (hdraw a).1
                        linarith
                      · simp only [hs, if_neg hjp]
                        linarith
                    · by_cases hjp : j > 0
                      · simp only [hs, if_pos hjp]
                        have := (hdraw a).2
                        linarith
                      · simp only [hs, if_neg hjp]
                        linarith
                  · exact ih (a + 1) (by omega) s hs
                · rw [postJsonLoop_exhausted d mr mra j _ _ h hrl ha2] at hs
                  cases hs
  exact key (mr + 1 - 1) 1 (le_refl _)

/-- An environment that rate-limits the first attempt and succeeds on the
second, used by the C4 witness. -/
def out429once : Nat → HttpOutcome :=
  fun n => if n = 1 then HttpOutcome.httpError 429 hdrNone body429
           else HttpOutcome.success []

/-- Jitter draws fixed at one eighth, used by the C4 witness. -/
def draws8 : Nat → ℚ := fun _ => 1/8

/-- C4, witness: the single sleep of a retried-once call satisfies the
formula and its bounds. -/
theorem c4_witness :
    ∃ n c hh b rl, out429once n = HttpOutcome.httpError c hh b
      ∧ parseRateLimitInfo c hh b = some rl
      ∧ (min (max 0 rl429.retry_after) 60 + (if (1/4 : ℚ) > 0 then draws8 1 else 0))
          = min (max 0 rl.retry_after) 60
            + (if (1/4 : ℚ) > 0 then draws8 n else 0)
      ∧ min (max 0 rl.retry_after) 60
          ≤ (min (max 0 rl429.retry_after) 60 + (if (1/4 : ℚ) > 0 then draws8 1 else 0))
      ∧ (min (max 0 rl429.retry_after) 60 + (if (1/4 : ℚ) > 0 then draws8 1 else 0))
          ≤ min (max 0 rl.retry_after) 60 + 1/4 := by
  have hd : ∀ n, 0 ≤ draws8 n ∧ draws8 n ≤ 1/4 := fun _ => ⟨by norm_num [draws8], by norm_num [draws8]⟩
  have hmem : (min (max 0 rl429.retry_after) 60 + (if (1/4 : ℚ) > 0 then draws8 1 else 0))
      ∈ (postJson reqW payloadHi 3 60 (1/4) out429once draws8).run.sleeps := by
    have e : (postJson reqW payloadHi 3 60 (1/4) out429once draws8).run
        = postJsonLoop out429once draws8 3 60 (1/4) reqW.fullUrl (dumps payloadHi) 1 := rfl
    rw [e, postJsonLoop_retry draws8 3 60 (1/4) _ _ (rfl : out429once 1 = _) rl429_spec
      (by omega)]
    rw [postJsonLoop_success draws8 3 60 (1/4) _ _ (rfl : out429once 2 = HttpOutcome.success [])]
    simp
  exact c4_sleep_bounds reqW payloadHi 3 60 (1/4) out429once draws8 hd _ hmem

/-! ### Substring reasoning for the redaction claim -/

/-- An infix match against an append either starts inside the left part or
lies wholly in the right part. -/
theorem infixAppendCases {tok A B : List Char} (h : tok <:+: A ++ B) :
    (∃ i, i < A.length ∧ tok <+: A.drop i ++ B) ∨ tok <:+: B := by
  obtain ⟨s, t, hst⟩ := h
  by_cases hι : s.length < A.length
  · left
    refine ⟨s.length, hι, ?_⟩
    have hdrop : (A ++ B).drop s.length = A.drop s.length ++ B := by
      rw [List.drop_append_eq_append_drop, Nat.sub_eq_zero_of_le (Nat.le_of_lt hι),
        List.drop_zero]
    have hpre : tok <+: (A ++ B).drop s.length := by
      refine ⟨t, ?_⟩
      rw [← hst, List.append_assoc, List.drop_left]
    rwa [hdrop] at hpre
  · right
    have hdrop : (A ++ B).drop s.length = B.drop (s.length - A.length) := by
      rw [List.drop_append_eq_append_drop, List.drop_eq_nil_of_le (by omega),
        List.nil_append]
    have hpre : tok <+: (A ++ B).drop s.length := by
      refine ⟨t, ?_⟩
      rw [← hst, List.append_assoc, List.drop_left]
    rw [hdrop] at hpre
    exact List.infix_iff_prefix_suffix.mpr ⟨_, hpre, List.drop_suffix _ _⟩

/-- A prefix of `S ++ B` no longer than `S` is a prefix of `S`. -/
theorem prefixOfAppendShort {tok S B : List Char} (h : tok <+: S ++ B)
    (hlen : tok.length ≤ S.length) : tok <+: S :=
  (List.isPrefix_append_of_length hlen).mp h

/-- If a prefix of `S ++ B` is at least as long as `S`, then `S` is a prefix
of it. -/
theorem shortPrefixOfLong {tok S B : List Char} (h : tok <+: S ++ B)
    (hlen : S.length ≤ tok.length) : S <+: tok := by
  obtain ⟨u, hu⟩ := h
  have h1 : (S ++ B).take S.length = S := by
    rw [List.take_append_eq_append_take, Nat.sub_self, List.take_zero,
      List.append_nil, List.take_length]
  rw [← hu, List.take_append_eq_append_take] at h1
  rw [Nat.sub_eq_zero_of_le hlen, List.take_zero, List.append_nil] at h1
  rw [← h1]
  exact List.take_prefix _ _

/-- A token cannot straddle an append boundary whose left side ends in a
character outside the token: any straddling match would cover that last
character. -/
theorem noStraddleLast {tok A B : List Char}
    (hlast : ∀ c, A.getLast? = some c → c ∉ tok)
    (hA : ¬ tok <:+: A) (hB : ¬ tok <:+: B) : ¬ tok <:+: A ++ B := by
  intro h
  rcases infixAppendCases h with ⟨i, hi, hpre⟩ | h2
  · by_cases hl : tok.length ≤ (A.drop i).length
    · have hp : tok <+: A.drop i := prefixOfAppendShort hpre hl
      exact hA (List.infix_iff_prefix_suffix.mpr ⟨A.drop i, hp, List.drop_suffix _ _⟩)
    · have hpS : A.drop i <+: tok := shortPrefixOfLong hpre (by omega)
      have hSne : A.drop i ≠ [] := by
        intro he
        have hle : A.length ≤ i := List.drop_eq_nil_iff.mp he
        omega
      obtain ⟨c, hc⟩ : ∃ c, (A.drop i).getLast? = some c := by
        cases hcc : (A.drop i).getLast? with
        | none => exact absurd (List.getLast?_eq_none_iff.mp hcc) hSne
        | some c => exact ⟨c, rfl⟩
      have hcA : A.getLast? = some c := by
        calc A.getLast? = (A.take i ++ A.drop i).getLast? := by rw [List.take_append_drop]
          _ = ((A.drop i).getLast?).or ((A.take i).getLast?) := List.getLast?_append
          _ = some c := by rw [hc]; rfl
      exact hlast c hcA (List.IsPrefix.subset hpS (List.mem_of_getLast?_eq_some hc))
  · exact hB h2

/-- A token cannot straddle an append boundary whose right side begins with
a character outside the token: any straddling match would cover that first
character. -/
theorem noStraddleHead {tok A B : List Char}
    (hhead : ∀ c, B.head? = some c → c ∉ tok)
    (hA : ¬ tok <:+: A) (hB : ¬ tok <:+: B) : ¬ tok <:+: A ++ B := by
  intro h
  rcases infixAppendCases h with ⟨i, hi, hpre⟩ | h2
  · by_cases hl : tok.length ≤ (A.drop i).length
    · have hp : tok <+: A.drop i := prefixOfAppendShort hpre hl
      exact hA (List.infix_iff_prefix_suffix.mpr ⟨A.drop i, hp, List.drop_suffix _ _⟩)
    · have hpS : A.drop i <+: tok := shortPrefixOfLong hpre (by omega)
      obtain ⟨T, hT⟩ := hpS
      obtain ⟨u, hu⟩ := hpre
      have hTu : T ++ u = B := by
        have hcat : A.drop i ++ (T ++ u) = A.drop i ++ B := by
          rw [← List.append_assoc, hT, hu]
        exact List.append_cancel_left hcat
      have hTne : T ≠ [] := by
        intro he
        subst he
        rw [List.append_nil] at hT
        have := congrArg List.length hT
        omega
      obtain ⟨c, T2, rfl⟩ : ∃ c T2, T = c :: T2 := by
        cases T with
        | nil => exact absurd rfl hTne
        | cons c T2 => exact ⟨c, T2, rfl⟩
      have hBhead : B.head? = some c := by rw [← hTu]; rfl
      have hcmem : c ∈ tok := by
        rw [← hT]
        exact List.mem_append_right _ (by simp)
      exact hhead c hBhead hcmem
  · exact hB h2

/-- The token path segment of the spec's example webhook URL. -/
def secretToken : List Char := "SECRETTOKEN".data

/-- The redacted form of `webhookUrl`. -/
def redactedWebhookUrl : List Char := "https://host/api/webhooks/123/<redacted>".data

/-- Discharge `noStraddleHead`'s head condition from the concrete head
character. -/
theorem headNotTokOf {B : List Char} (c0 : Char) (hB : B.head? = some c0)
    (h : c0 ∉ secretToken) : ∀ c, B.head? = some c → c ∉ secretToken := by
  intro c hc
  rw [hB] at hc
  injection hc with h2
  subst h2
  exact h

/-- Discharge `noStraddleLast`'s last condition from the concrete last
character. -/
theorem lastNotTok (A : List Char) {c0 : Char} (hA : A.getLast? = some c0)
    (h : c0 ∉ secretToken) : ∀ c, A.getLast? = some c → c ∉ secretToken := by
  intro c hc
  rw [hA] at hc
  injection hc with h2
  subst h2
  exact h

/-- `Nat.digitChar` only produces digits, lowercase hex letters or `*`. -/
theorem digitChar_mem_safe (n : Nat) : Nat.digitChar n ∈ "0123456789abcdef*".data := by
  by_cases h : n < 16
  · interval_cases n <;> decide
  · have he : Nat.digitChar n = '*' := by
      unfold Nat.digitChar
      repeat rw [if_neg (by omega)]
    rw [he]
    decide

/-- Characters of `Nat.toDigitsCore` come from `digitChar` or the
accumulator. -/
theorem toDigitsCore_mem (b : Nat) :
    ∀ (fuel n : Nat) (acc : List Char) (c : Char), c ∈ Nat.toDigitsCore b fuel n acc →
      c ∈ "0123456789abcdef*".data ∨ c ∈ acc := by
  intro fuel
  induction fuel with
  | zero => exact fun n acc c hc => Or.inr hc
  | succ fuel ih =>
      intro n acc c hc
      rw [show Nat.toDigitsCore b (fuel + 1) n acc
          = if n / b = 0 then Nat.digitChar (n % b) :: acc
            else Nat.toDigitsCore b fuel (n / b) (Nat.digitChar (n % b) :: acc) from rfl] at hc
      by_cases hz : n / b = 0
      · rw [if_pos hz] at hc
        rcases List.mem_cons.mp hc with rfl | hc
        · exact Or.inl (digitChar_mem_safe _)
        · exact Or.inr hc
      · rw [if_neg hz] at hc
        rcases ih (n / b) (Nat.digitChar (n % b) :: acc) c hc with h | h
        · exact Or.inl h
        · rcases List.mem_cons.mp h with rfl | h
          · exact Or.inl (digitChar_mem_safe _)
          · exact Or.inr h

/-- The token (uppercase letters) never occurs inside a printed number. -/
theorem natDigits_token_free (n : Nat) : ¬ secretToken <:+: natDigits n := by
  intro h
  have hS : 'S' ∈ natDigits n := List.IsInfix.subset h (by decide)
  rcases toDigitsCore_mem 10 (n + 1) n [] 'S' hS with h1 | h1
  · exact absurd h1 (by decide)
  · simp at h1

/-- `intercalate` on a singleton. -/
theorem intercalate_single_eq (b : List Char) : List.intercalate [' '] [b] = b := by
  simp [List.intercalate]

/-- `intercalate` step on two or more parts. -/
theorem intercalate_cons₂_eq (b b2 : List Char) (rest : List (List Char)) :
    List.intercalate [' '] (b :: b2 :: rest)
      = b ++ ' ' :: List.intercalate [' '] (b2 :: rest) := by
  simp [List.intercalate]

/-- Token-free lists stay token-free after prepending a space. -/
theorem noStraddleSpaceConsTok {B : List Char} (hB : ¬ secretToken <:+: B) :
    ¬ secretToken <:+: ' ' :: B := by
  have h := noStraddleLast (A := [' ']) (B := B)
    (lastNotTok [' '] rfl (by decide)) (by decide) hB
  simpa using h

/-- The space-joined context bits stay token-free when each bit is. -/
theorem tokenFreeJoin : ∀ bits : List (List Char),
    (∀ b ∈ bits, ¬ secretToken <:+: b) →
    ¬ secretToken <:+: List.intercalate [' '] bits := by
  intro bits
  induction bits with
  | nil =>
      intro _ hin
      rw [show List.intercalate [' '] ([] : List (List Char)) = [] from rfl] at hin
      exact absurd (List.infix_nil.mp hin) (by decide)
  | cons b rest ih =>
      intro hprop
      cases rest with
      | nil =>
          rw [intercalate_single_eq]
          exact hprop b (by simp)
      | cons b2 rest2 =>
          rw [intercalate_cons₂_eq]
          have hR : ¬ secretToken <:+: List.intercalate [' '] (b2 :: rest2) :=
            ih (fun x hx => hprop x (List.mem_cons_of_mem _ hx))
          refine noStraddleHead ?_ (hprop b (by simp)) (noStraddleSpaceConsTok hR)
          exact headNotTokOf ' ' rfl (by decide)

/-- Response-derived strings in a `DiscordRateLimitInfo` value carry no
token text. -/
def rateLimitTokenFree (r : DiscordRateLimitInfo) : Prop :=
  (∀ s, r.bucket = some s → ¬ secretToken <:+: s)
  ∧ (∀ s, r.remaining = some s → ¬ secretToken <:+: s)
  ∧ (∀ s, r.reset_after = some s → ¬ secretToken <:+: s)

/-- Response-derived strings in one attempt outcome carry no token text
(the token originates only from the URL). -/
def outcomeTokenFree : HttpOutcome → Prop
  | HttpOutcome.success _ => True
  | HttpOutcome.httpError _ hd b =>
      (¬ secretToken <:+: b)
      ∧ (∀ s, hd.xRateLimitBucket = some s → ¬ secretToken <:+: s)
      ∧ (∀ s, hd.xRateLimitRemaining = some s → ¬ secretToken <:+: s)
      ∧ (∀ s, hd.xRateLimitResetAfter = some s → ¬ secretToken <:+: s)
  | HttpOutcome.urlError r => ¬ secretToken <:+: r

/-- Each context bit of a `webhookUrl` error message is token-free when the
rate-limit diagnostic strings are. -/
theorem bits_token_free (rl : Option DiscordRateLimitInfo)
    (hrl : ∀ r, rl = some r → rateLimitTokenFree r) :
    ∀ b ∈ errorContextBits webhookUrl rl, ¬ secretToken <:+: b := by
  intro b hb
  cases rl with
  | none =>
      have hb2 : b = "url=".data ++ sanitizeUrlForLogs webhookUrl := by
        simpa [errorContextBits] using hb
      subst hb2
      decide
  | some r =>
      obtain ⟨hbu, hrm, hra⟩ := hrl r rfl
      simp only [errorContextBits, List.mem_cons] at hb
      rcases hb with rfl | rfl | hb
      · decide
      · cases hg : r.is_global <;> decide
      · rcases List.mem_append.mp hb with hb12 | hb3
        · rcases List.mem_append.mp hb12 with hb1 | hb2
          · rcases ho : r.bucket with _ | s
            · rw [ho] at hb1
              simp at hb1
            · rw [ho] at hb1
              simp only [List.mem_singleton] at hb1
              subst hb1
              refine noStraddleLast ?_ ?_ (hbu s ho)
              · exact lastNotTok _ rfl (by decide)
              · decide
          · rcases ho : r.remaining with _ | s
            · rw [ho] at hb2
              simp at hb2
            · rw [ho] at hb2
              simp only [List.mem_singleton] at hb2
              subst hb2
              refine noStraddleLast ?_ ?_ (hrm s ho)
              · exact lastNotTok _ rfl (by decide)
              · decide
        · rcases ho : r.reset_after with _ | s
          · rw [ho] at hb3
            simp at hb3
          · rw [ho] at hb3
            simp only [List.mem_singleton] at hb3
            subst hb3
            refine noStraddleLast ?_ ?_ (hra s ho)
            · exact lastNotTok _ rfl (by decide)
            · decide

/-- No HTTP-branch error message for the webhook endpoint contains the
token, whatever the status code, the rate-limit diagnostics, or the
(token-free) response body. -/
theorem msgTokenFree (code : Nat) (rl : Option DiscordRateLimitInfo) (body : List Char)
    (hbody : ¬ secretToken <:+: body)
    (hrl : ∀ r, rl = some r → rateLimitTokenFree r) :
    ¬ secretToken <:+: httpErrorMessage code webhookUrl rl body := by
  have hJ : ¬ secretToken <:+: List.intercalate [' '] (errorContextBits webhookUrl rl) :=
    tokenFreeJoin _ (bits_token_free rl hrl)
  have hmsgeq : httpErrorMessage code webhookUrl rl body
      = if body.isEmpty
        then "HTTP request failed (HTTP ".data ++ natDigits code ++ ").".data
          ++ (' ' :: List.intercalate [' '] (errorContextBits webhookUrl rl))
        else ("HTTP request failed (HTTP ".data ++ natDigits code ++ ").".data
          ++ (' ' :: List.intercalate [' '] (errorContextBits webhookUrl rl)))
          ++ " Response: ".data ++ body.take 500 := rfl
  rw [hmsgeq]
  by_cases hbe : body.isEmpty
  · rw [if_pos hbe]
    rw [List.append_assoc, List.append_assoc]
    have h1 := noStraddleSpaceConsTok hJ
    have h2 := noStraddleLast (A := ").".data)
      (lastNotTok _ rfl (by decide)) (by decide) h1
    have h3 : ¬ secretToken <:+: natDigits code ++ (").".data
        ++ (' ' :: List.intercalate [' '] (errorContextBits webhookUrl rl))) := by
      refine noStraddleHead ?_ (natDigits_token_free code) h2
      exact headNotTokOf ')' rfl (by decide)
    refine noStraddleLast ?_ ?_ h3
    · exact lastNotTok _ rfl (by decide)
    · decide
  · rw [if_neg hbe]
    have hsh : ("HTTP request failed (HTTP ".data ++ natDigits code ++ ").".data
          ++ (' ' :: List.intercalate [' '] (errorContextBits webhookUrl rl)))
          ++ " Response: ".data ++ body.take 500
        = "HTTP request failed (HTTP ".data ++ (natDigits code ++ (").".data
          ++ (' ' :: (List.intercalate [' '] (errorContextBits webhookUrl rl)
            ++ (" Response: ".data ++ body.take 500))))) := by
      simp [List.append_assoc]
    rw [hsh]
    have t1 : ¬ secretToken <:+: body.take 500 := fun hin =>
      hbody (List.IsInfix.trans hin ( List.IsPrefix.isInfix ( List.take_prefix _ _)))
    have t2 := noStraddleLast (A := " Response: ".data)
      (lastNotTok _ rfl (by decide)) (by decide) t1
    have t3 : ¬ secretToken <:+: List.intercalate [' '] (errorContextBits webhookUrl rl)
        ++ (" Response: ".data ++ body.take 500) := by
      refine noStraddleHead ?_ hJ t2
      exact headNotTokOf ' ' rfl (by decide)
    have t4 := noStraddleSpaceConsTok t3
    have t5 := noStraddleLast (A := ").".data)
      (lastNotTok _ rfl (by decide)) (by decide) t4
    have t6 : ¬ secretToken <:+: natDigits code ++ (").".data
        ++ (' ' :: (List.intercalate [' '] (errorContextBits webhookUrl rl)
          ++ (" Response: ".data ++ body.take 500)))) := by
      refine noStraddleHead ?_ (natDigits_token_free code) t5
      exact headNotTokOf ')' rfl (by decide)
    refine noStraddleLast ?_ ?_ t6
    · exact lastNotTok _ rfl (by decide)
    · decide

/-- Every HTTP-branch error message for the webhook endpoint contains the
redacted URL. -/
theorem msgContainsRedacted (code : Nat) (rl : Option DiscordRateLimitInfo)
    (body : List Char) :
    redactedWebhookUrl <:+: httpErrorMessage code webhookUrl rl body := by
  obtain ⟨rest, hrest⟩ : ∃ rest, errorContextBits webhookUrl rl
      = ("url=".data ++ sanitizeUrlForLogs webhookUrl) :: rest := by
    cases rl with
    | none => exact ⟨[], rfl⟩
    | some r => exact ⟨_, rfl⟩
  have hfirst : redactedWebhookUrl <:+: "url=".data ++ sanitizeUrlForLogs webhookUrl := by
    decide
  have hJ : ("url=".data ++ sanitizeUrlForLogs webhookUrl)
      <+: List.intercalate [' '] (errorContextBits webhookUrl rl) := by
    rw [hrest]
    cases rest with
    | nil => rw [intercalate_single_eq]
    | cons b2 rest2 =>
        rw [intercalate_cons₂_eq]
        exact List.prefix_append _ _
  have h1 : redactedWebhookUrl <:+: List.intercalate [' '] (errorContextBits webhookUrl rl) :=
    List.IsInfix.trans hfirst ( List.IsPrefix.isInfix hJ)
  have h2 : redactedWebhookUrl
      <:+: ' ' :: List.intercalate [' '] (errorContextBits webhookUrl rl) :=
    List.IsInfix.trans h1 ( List.IsSuffix.isInfix ⟨[' '], rfl⟩)
  have hmsgeq : httpErrorMessage code webhookUrl rl body
      = if body.isEmpty
        then "HTTP request failed (HTTP ".data ++ natDigits code ++ ").".data
          ++ (' ' :: List.intercalate [' '] (errorContextBits webhookUrl rl))
        else ("HTTP request failed (HTTP ".data ++ natDigits code ++ ").".data
          ++ (' ' :: List.intercalate [' '] (errorContextBits webhookUrl rl)))
          ++ " Response: ".data ++ body.take 500 := rfl
  rw [hmsgeq]
  by_cases hbe : body.isEmpty
  · rw [if_pos hbe]
    exact List.IsInfix.trans h2 ( List.IsSuffix.isInfix (List.suffix_append _ _))
  · rw [if_neg hbe]
    have hbase : redactedWebhookUrl <:+: "HTTP request failed (HTTP ".data
        ++ natDigits code ++ ").".data
        ++ (' ' :: List.intercalate [' '] (errorContextBits webhookUrl rl)) :=
      List.IsInfix.trans h2 ( List.IsSuffix.isInfix (List.suffix_append _ _))
    exact List.IsInfix.trans hbase
      ( List.IsPrefix.isInfix
        (List.IsPrefix.trans (List.prefix_append _ _) (List.prefix_append _ _)))

/-- The transport-branch message embeds only the exception text: it stays
token-free whenever that text is. -/
theorem transportTokenFree (reason : List Char) (hr : ¬ secretToken <:+: reason) :
    ¬ secretToken <:+: transportErrorMessage reason := by
  have h1 := noStraddleHead (A := reason) (B := ").".data)
    (headNotTokOf ')' rfl (by decide)) hr (by decide)
  have h2 := noStraddleLast (A := "HTTP request failed (".data)
    (lastNotTok _ rfl (by decide)) (by decide) h1
  intro h
  apply h2
  have he : transportErrorMessage reason
      = "HTTP request failed (".data ++ (reason ++ ").".data) := by
    unfold transportErrorMessage
    rw [List.append_assoc]
  rwa [he] at h

/-- Every `DiscordHTTPError` message the retry loop can raise is either the
transport-branch message of some attempt or the HTTP-branch message of some
attempt, built with that attempt's parsed rate-limit info. -/
theorem postJsonLoop_error_shape (o : Nat → HttpOutcome) (d : Nat → ℚ) (mr : Nat)
    (mra j : ℚ) (url data : List Char) :
    ∀ k a m, mr + 1 - a ≤ k →
      (postJsonLoop o d mr mra j url data a).result
        = Except.error (PostError.discordHTTP m) →
      (∃ n r, o n = HttpOutcome.urlError r ∧ m = transportErrorMessage r)
      ∨ (∃ n c hd b, o n = HttpOutcome.httpError c hd b
          ∧ m = httpErrorMessage c url (parseRateLimitInfo c hd b) b) := by
  intro k
  induction k with
  | zero =>
      intro a m ha hm
      have hgt : ¬ a ≤ mr := by omega
      cases h : o a with
      | success b =>
          rw [postJsonLoop_success d mr mra j _ _ h] at hm
          simp only at hm
          unfold successResult at hm
          by_cases hb : b.isEmpty
          · rw [if_pos hb] at hm
            cases hm
          · rw [if_neg hb] at hm
            cases hl : loads b <;> rw [hl] at hm <;> cases hm
      | urlError r =>
          rw [postJsonLoop_urlError d mr mra j _ _ h] at hm
          simp only at hm
          injection hm with h1
          injection h1 with h2
          exact Or.inl ⟨a, r, h, h2.symm⟩
      | httpError c hd b =>
          cases hrl : parseRateLimitInfo c hd b with
          | none =>
              rw [postJsonLoop_noInfo d mr mra j _ _ h hrl] at hm
              simp only at hm
              injection hm with h1
              injection h1 with h2
              refine Or.inr ⟨a, c, hd, b, h, ?_⟩
              rw [hrl]
              exact h2.symm
          | some rl =>
              rw [postJsonLoop_exhausted d mr mra j _ _ h hrl hgt] at hm
              simp only at hm
              injection hm with h1
              injection h1 with h2
              refine Or.inr ⟨a, c, hd, b, h, ?_⟩
              rw [hrl]
              exact h2.symm
  | succ k ih =>
      intro a m ha hm
      cases h : o a with
      | success b =>
          rw [postJsonLoop_success d mr mra j _ _ h] at hm
          simp only at hm
          unfold successResult at hm
          by_cases hb : b.isEmpty
          · rw [if_pos hb] at hm
            cases hm
          · rw [if_neg hb] at hm
            cases hl : loads b <;> rw [hl] at hm <;> cases hm
      | urlError r =>
          rw [postJsonLoop_urlError d mr mra j _ _ h] at hm
          simp only at hm
          injection hm with h1
          injection h1 with h2
          exact Or.inl ⟨a, r, h, h2.symm⟩
      | httpError c hd b =>
          cases hrl : parseRateLimitInfo c hd b with
          | none =>
              rw [postJsonLoop_noInfo d mr mra j _ _ h hrl] at hm
              simp only at hm
              injection hm with h1
              injection h1 with h2
              refine Or.inr ⟨a, c, hd, b, h, ?_⟩
              rw [hrl]
              exact h2.symm
          | some rl =>
              by_cases ha2 : a ≤ mr
              · rw [postJsonLoop_retry d mr mra j _ _ h hrl ha2] at hm
                simp only at hm
                exact ih (a + 1) m (by omega) hm
              · rw [postJsonLoop_exhausted d mr mra j _ _ h hrl ha2] at hm
                simp only at hm
                injection hm with h1
                injection h1 with h2
                refine Or.inr ⟨a, c, hd, b, h, ?_⟩
                rw [hrl]
                exact h2.symm

/-- The diagnostic fields of a parsed rate-limit info are the response
headers verbatim. -/
theorem parseRateLimitInfo_fields {c : Nat} {hd : Headers} {b : List Char}
    {r : DiscordRateLimitInfo} (h : parseRateLimitInfo c hd b = some r) :
    r.bucket = hd.xRateLimitBucket ∧ r.remaining = hd.xRateLimitRemaining
    ∧ r.reset_after = hd.xRateLimitResetAfter := by
  unfold parseRateLimitInfo at h
  by_cases hc : c ≠ 429
  · rw [if_pos hc] at h
    exact Option.noConfusion h
  · rw [if_neg hc] at h
    rcases hbi : bodyRateInfo b with ⟨ra0, isg⟩
    rw [hbi] at h
    simp only at h
    split at h
    · exact Option.noConfusion h
    · injection h with h2
      subst h2
      exact ⟨rfl, rfl, rfl⟩

/-- C5, counterexample: a transport-level failure at the webhook endpoint
raises a message that embeds no URL-derived text, so it does not contain
the redacted form — the claim's "every error message contains the redacted
form" fails on the transport branch. -/
theorem c5_counterexample :
    (postJson reqW payloadHi 3 60 (1/4)
        (fun _ => HttpOutcome.urlError "<urlopen error timed out>".data) draws0).run.result
      = Except.error (PostError.discordHTTP
          (transportErrorMessage "<urlopen error timed out>".data))
    ∧ ¬ redactedWebhookUrl <:+: transportErrorMessage "<urlopen error timed out>".data := by
  constructor
  · have e : (postJson reqW payloadHi 3 60 (1/4)
        (fun _ => HttpOutcome.urlError "<urlopen error timed out>".data) draws0).run
        = postJsonLoop (fun _ => HttpOutcome.urlError "<urlopen error timed out>".data)
            draws0 3 60 (1/4) reqW.fullUrl (dumps payloadHi) 1 := rfl
    rw [e, postJsonLoop_urlError draws0 3 60 (1/4) reqW.fullUrl (dumps payloadHi) rfl]
  · decide

/-- C5, amended: at the endpoint `https://host/api/webhooks/123/SECRETTOKEN`
the token is replaced by the fixed marker before the URL enters any error
message: every HTTP-branch `DiscordHTTPError` message — any status code, any
rate-limit diagnostics, any response body — contains the redacted URL, and
no message `post_json` can raise contains the token unless the token occurs
in response-derived data (body, rate-limit header strings, or the transport
exception text); the transport-branch message embeds no URL-derived text at
all. -/
theorem c5_redaction (code : Nat) (rl : Option DiscordRateLimitInfo) (body : List Char)
    (payload : Json) (mr : Nat) (mra jit : ℚ) (o : Nat → HttpOutcome) (d : Nat → ℚ)
    (hbody : ¬ secretToken <:+: body)
    (hrl : ∀ r, rl = some r → rateLimitTokenFree r)
    (hout : ∀ n, outcomeTokenFree (o n)) :
    sanitizeUrlForLogs webhookUrl = redactedWebhookUrl
    ∧ redactedWebhookUrl <:+: httpErrorMessage code webhookUrl rl body
    ∧ ¬ secretToken <:+: httpErrorMessage code webhookUrl rl body
    ∧ (∀ m, (postJson ⟨webhookUrl, none⟩ payload mr mra jit o d).run.result
          = Except.error (PostError.discordHTTP m) → ¬ secretToken <:+: m) := by
  refine ⟨by decide, msgContainsRedacted code rl body,
    msgTokenFree code rl body hbody hrl, ?_⟩
  intro m hm
  have e : (postJson ⟨webhookUrl, none⟩ payload mr mra jit o d).run
      = postJsonLoop o d mr mra jit webhookUrl (dumps payload) 1 := rfl
  rw [e] at hm
  rcases postJsonLoop_error_shape o d mr mra jit webhookUrl (dumps payload)
      (mr + 1 - 1) 1 m (le_refl _) hm with ⟨n, r, hn, hmeq⟩ | ⟨n, c, hd, b, hn, hmeq⟩
  · subst hmeq
    have ht := hout n
    rw [hn] at ht
    exact transportTokenFree r ht
  · subst hmeq
    have ht := hout n
    rw [hn] at ht
    obtain ⟨htb, htbu, htrm, htra⟩ := ht
    apply msgTokenFree c (parseRateLimitInfo c hd b) b htb
    intro ri hri
    obtain ⟨f1, f2, f3⟩ := parseRateLimitInfo_fields hri
    refine ⟨fun s hs => htbu s ?_, fun s hs => htrm s ?_, fun s hs => htra s ?_⟩
    · rw [← f1]; exact hs
    · rw [← f2]; exact hs
    · rw [← f3]; exact hs

/-- C5, witness for the amended theorem: concrete status, rate-limit info,
body and outcome stream, all free of the token. -/
theorem c5_witness :
    sanitizeUrlForLogs webhookUrl = redactedWebhookUrl
    ∧ redactedWebhookUrl <:+: httpErrorMessage 429 webhookUrl (some rl429) "rate limited".data
    ∧ ¬ secretToken <:+: httpErrorMessage 429 webhookUrl (some rl429) "rate limited".data
    ∧ (∀ m, (postJson ⟨webhookUrl, none⟩ payloadHi 3 60 (1/4) out429 draws0).run.result
          = Except.error (PostError.discordHTTP m) → ¬ secretToken <:+: m) :=
  c5_redaction 429 (some rl429) "rate limited".data payloadHi 3 60 (1/4) out429 draws0
    (by decide)
    (fun r hr => by
      injection hr with h2
      subst h2
      exact ⟨fun s hs => Option.noConfusion hs, fun s hs => Option.noConfusion hs,
        fun s hs => Option.noConfusion hs⟩)
    (fun n => ⟨by decide, fun s hs => Option.noConfusion hs,
      fun s hs => Option.noConfusion hs, fun s hs => Option.noConfusion hs⟩)

end DiscordHttp
